import Mathlib

/-!
Verification of the fight-song-viz repository.

The development shallowly embeds the parts of the JavaScript source that the
checked properties are about:

* the school record (js/utils.js data model) and the pure helpers
  `isPurdue`, `sortSchools`;
* `NetworkGraph.calculateSimilarity` / `NetworkGraph.prepareData`
  (js/network.js);
* the marker-radius functions of `USAMap`, `ScatterPlot` and the hero map
  (`EnergyGalaxy.createMarkers`);
* the per-element opacity rules of `USAMap.filterByConference` and
  `FightSongClock.filterByConference`;
* the shared reactive store (js/state.js): `setState` / `notify` /
  `subscribe` with re-entrant callbacks, modelled as a fuel-indexed
  interpreter over a small syntactic callback language.

JavaScript numbers are modelled as rationals, nullable year as `Option Int`,
and `Array.prototype.sort` with a user comparator as a stable insertion sort
driven by the comparator's sign.
-/

namespace FightSong

/-- A school record, as loaded from the dataset and consumed by the views
(js/utils.js and friends).  Only the fields used by the verified code paths
are carried. -/
structure School where
  school : String
  conference : String
  bpm : ℚ
  sec_duration : ℚ
  year : Option Int
  trope_count : ℚ
deriving DecidableEq, Repr

/-- `isPurdue` from js/utils.js: name equality against the constant. -/
def isPurdue (s : School) : Bool :=
  s.school = "Purdue"

/-! ## Similarity network (js/network.js) -/

/-- `NetworkGraph.config.similarityThreshold`. -/
def similarityThreshold : ℚ := 0.7

/-- `NetworkGraph.calculateSimilarity(s1, s2)`. -/
def calculateSimilarity (s1 s2 : School) : ℚ :=
  let bpmDiff := |s1.bpm - s2.bpm|
  let durationDiff := |s1.sec_duration - s2.sec_duration|
  let tropeDiff := |s1.trope_count - s2.trope_count|
  let bpmSim := 1 - min (bpmDiff / 100) 1
  let durationSim := 1 - min (durationDiff / 60) 1
  let tropeSim := 1 - min (tropeDiff / 10) 1
  let confSim : ℚ := if s1.conference = s2.conference then 0.3 else 0
  (bpmSim * 0.3 + durationSim * 0.2 + tropeSim * 0.2 + confSim) / 0.7

/-- The ordered pairs `(schools[i], schools[j])` with `i < j`, as enumerated
by the double loop of `NetworkGraph.prepareData`. -/
def pairsAfter : List School → List (School × School)
  | [] => []
  | s :: rest => rest.map (fun t => (s, t)) ++ pairsAfter rest

/-- The link list built by `NetworkGraph.prepareData`: one entry per pair
whose similarity exceeds the threshold. -/
def prepareLinks (schools : List School) : List (School × School × ℚ) :=
  (pairsAfter schools).filterMap fun p =>
    let similarity := calculateSimilarity p.1 p.2
    if similarityThreshold < similarity then some (p.1, p.2, similarity) else none

/-! ## Marker radii (js/map.js, scatter, hero map) -/

/-- `USAMap.getRadius` with `config = { baseRadius: 5, radiusMultiplier: 1.5,
purdueRadius: 12 }`. -/
def mapGetRadius (school : School) : ℚ :=
  if isPurdue school then 12 else 5 + school.trope_count * 1.5

/-- `ScatterPlot.getRadius` with `config = { baseRadius: 4,
radiusMultiplier: 1, purdueRadius: 10 }`. -/
def scatterGetRadius (school : School) : ℚ :=
  if isPurdue school then 10 else 4 + school.trope_count * 1

/-- The marker `size` computed by `EnergyGalaxy.createMarkers` with
`config = { purdueRadius: 29, baseRadius: 6, radiusMultiplier: 1.2 }`. -/
def heroMarkerSize (school : School) : ℚ :=
  if isPurdue school then 29 else 6 + school.trope_count * 1.2

/-! ## Conference filtering opacities -/

/-- Per-element opacity assigned by `USAMap.filterByConference`. -/
def mapFilterOpacity (conference : String) (d : School) : ℚ :=
  let isAll := conference = "all"
  if isAll ∨ d.conference = conference then 1 else 0.15

/-- Per-arc stroke opacity assigned by `FightSongClock.filterByConference`. -/
def clockFilterOpacity (conference : String) (d : School) : ℚ :=
  let isAll := conference = "all"
  if isPurdue d then 1
  else if isAll ∨ d.conference = conference then 0.75
  else 0.15

/-! ## `sortSchools` (js/utils.js)

`Array.prototype.sort(cmp)` is modelled as a stable insertion sort that
places `a` before `b` exactly when `cmp a b ≤ 0`. -/

/-- Insert into a sorted list, before the first element `b` with
`le a b = true`. -/
def insertSorted (le : School → School → Bool) (a : School) :
    List School → List School
  | [] => [a]
  | b :: bs => if le a b then a :: b :: bs else b :: insertSorted le a bs

/-- Stable insertion sort by a boolean "goes before or ties" relation. -/
def jsSort (le : School → School → Bool) : List School → List School
  | [] => []
  | a :: rest => insertSorted le a (jsSort le rest)

/-- The `'year'` comparator of `sortSchools`: unknown years go to the end. -/
def cmpYear (a b : School) : Int :=
  match a.year with
  | none => 1
  | some ya =>
    match b.year with
    | none => -1
    | some yb => ya - yb

/-- `sortSchools(schools, sortBy)` from js/utils.js.  It copies the input
array and sorts the copy; `localeCompare` on conference and school names is
modelled as code-point string comparison. -/
def sortSchools (schools : List School) (sortBy : String) : List School :=
  match sortBy with
  | "conference" =>
    jsSort (fun a b =>
      match compare a.conference b.conference with
      | .lt => true
      | .gt => false
      | .eq => compare a.school b.school ≠ .gt) schools
  | "trope_count" => jsSort (fun a b => b.trope_count - a.trope_count ≤ 0) schools
  | "year" => jsSort (fun a b => cmpYear a b ≤ 0) schools
  | "bpm" => jsSort (fun a b => b.bpm - a.bpm ≤ 0) schools
  | _ => schools

/-! ## The shared reactive store (js/state.js)

Keys and callback identities are `Nat`, values are `Int` (`!==` on the
primitive values used by the store is decidable equality; an absent entry,
JavaScript `undefined`, is `none`).  A subscribed callback is an arbitrary
straight-line program over the store API: it may perform re-entrant
`setState` calls and may throw.  Execution is a fuel-indexed interpreter
that mirrors `setState` / `notify` / the `try`/`catch` around each callback,
and records an event trace: one `notifyEv` per `notify(key, value)` call,
one `invokeEv` per callback invocation (carrying the `value` argument the
callback receives and the value stored for the key at that instant), and
one `errorEv` per caught callback exception. -/

/-- One statement of a subscriber callback's body. -/
inductive Cmd where
  | setSt (k : Nat) (v : Int)
  | throwErr
deriving DecidableEq, Repr

/-- A callback body. -/
abbrev Prog := List Cmd

/-- An environment assigning each callback identity its body. -/
abbrev Env := Nat → Prog

/-- The store: `state` object plus the `listeners` map.  JavaScript's
`Set` of callbacks per key is a duplicate-free list in insertion order. -/
structure Sto where
  state : Nat → Option Int
  listeners : Nat → List Nat

/-- Write `state[k] = v`. -/
def Sto.setVal (σ : Sto) (k : Nat) (v : Int) : Sto :=
  { σ with state := fun k2 => if k2 = k then some v else σ.state k2 }

/-- Observable events of a store execution. -/
inductive Event where
  | notifyEv (k : Nat) (v : Int)
  | invokeEv (c : Nat) (k : Nat) (arg : Int) (stored : Option Int)
  | errorEv (c : Nat)
deriving DecidableEq, Repr

/-- Pending work of the interpreter: a `setState(k, v)` call, the remaining
callbacks of a `notify` pass, or the rest of one callback's body. -/
inductive Job where
  | setJ (k : Nat) (v : Int)
  | cbsJ (cbs : List Nat) (k : Nat) (v : Int)
  | progJ (c : Nat) (p : Prog)

/-- The store interpreter.  `exec env fuel (Job.setJ k v) σ` runs
`setState(k, v)`: if the stored value already equals `v` it is a no-op,
otherwise it writes and synchronously notifies every listener of `k` in
registration order, passing the captured `v`; a callback's re-entrant
`setState` cascades before later listeners of the outer pass run; a throw
is caught and logged and the pass continues.  `fuel` bounds the cascade
depth; an exhausted interpreter stops silently. -/
def exec (env : Env) : Nat → Job → Sto → Sto × List Event
  | 0, _, σ => (σ, [])
  | fuel + 1, .setJ k v, σ =>
    if σ.state k = some v then (σ, [])
    else
      let σ2 := σ.setVal k v
      let r := exec env fuel (.cbsJ (σ2.listeners k) k v) σ2
      (r.1, Event.notifyEv k v :: r.2)
  | _ + 1, .cbsJ [] _ _, σ => (σ, [])
  | fuel + 1, .cbsJ (c :: rest) k v, σ =>
    let ev := Event.invokeEv c k v (σ.state k)
    let r1 := exec env fuel (.progJ c (env c)) σ
    let r2 := exec env fuel (.cbsJ rest k v) r1.1
    (r2.1, ev :: r1.2 ++ r2.2)
  | _ + 1, .progJ _ [], σ => (σ, [])
  | _ + 1, .progJ c (.throwErr :: _), σ => (σ, [Event.errorEv c])
  | fuel + 1, .progJ c (.setSt k v :: rest), σ =>
    let r1 := exec env fuel (.setJ k v) σ
    let r2 := exec env fuel (.progJ c rest) r1.1
    (r2.1, r1.2 ++ r2.2)

/-- `setState(key, value)` as an external call. -/
def setState (env : Env) (fuel : Nat) (k : Nat) (v : Int) (σ : Sto) :
    Sto × List Event :=
  exec env fuel (.setJ k v) σ

/-- `subscribe(key, callback)`: add the callback to the key's `Set`
(insertion order, no duplicates). -/
def subscribe (σ : Sto) (k : Nat) (c : Nat) : Sto :=
  if c ∈ σ.listeners k then σ
  else
    { σ with
      listeners := fun k2 => if k2 = k then σ.listeners k ++ [c] else σ.listeners k2 }

/-- Running the unsubscribe closure returned by `subscribe(key, callback)`:
`listeners.get(key).delete(callback)`. -/
def unsubscribe (σ : Sto) (k : Nat) (c : Nat) : Sto :=
  { σ with
    listeners := fun k2 =>
      if k2 = k then (σ.listeners k).filter (fun d => d ≠ c) else σ.listeners k2 }

/-! Trace accessors used by the statements. -/

/-- Does a callback body contain a `setState` on key `k`? -/
def writesKey (k : Nat) : Prog → Bool
  | [] => false
  | .setSt k2 _ :: rest => k2 = k ∨ writesKey k rest
  | .throwErr :: rest => writesKey k rest

/-- The number of `notify` calls for key `k` in a trace. -/
def notifyCount (k : Nat) (es : List Event) : Nat :=
  es.countP fun e =>
    match e with
    | .notifyEv k2 _ => k2 = k
    | _ => false

/-- The callback invocations for key `k` in a trace, in order:
callback identity, `value` argument, and the value stored for `k` at that
instant. -/
def invokesOnKey (k : Nat) (es : List Event) : List (Nat × Int × Option Int) :=
  es.filterMap fun e =>
    match e with
    | .invokeEv c k2 arg stored => if k2 = k then some (c, arg, stored) else none
    | _ => none

/-- Every invocation for key `k` in the trace received exactly the value
stored for `k` at the moment of that invocation. -/
def allFresh (k : Nat) (es : List Event) : Bool :=
  (invokesOnKey k es).all fun r => r.2.2 = some r.2.1

/-- Jobs that stay away from key `K`: a `setState` on another key, a
notification pass for another key, or a callback body that never writes
`K`. -/
def jobSafe (K : Nat) : Job → Prop
  | .setJ k _ => k ≠ K
  | .cbsJ _ k _ => k ≠ K
  | .progJ _ p => writesKey K p = false

/-- Jobs whose pending `K`-pass, if any, does not contain callback `c`. -/
def jobAvoids (K c : Nat) : Job → Prop
  | .cbsJ cs k _ => k = K → c ∉ cs
  | _ => True

/-- The ordering that `sortSchools(·, 'year')` is expected to establish:
unknown years at the end, known years non-decreasing. -/
def yearLe (a b : School) : Prop :=
  b.year = none ∨ ∃ ya yb, a.year = some ya ∧ b.year = some yb ∧ ya ≤ yb

/-! ## Concrete fixtures used by witnesses and counterexamples -/

/-- The featured record. -/
def purdueRec : School :=
  { school := "Purdue", conference := "Big Ten", bpm := 152,
    sec_duration := 67, year := some 1913, trope_count := 3 }

/-- A non-featured record with five tropes. -/
def highTropeRec : School :=
  { school := "Notre Dame", conference := "Independent", bpm := 152,
    sec_duration := 64, year := some 1908, trope_count := 5 }

/-- A non-featured record with three tropes. -/
def lowTropeRec : School :=
  { school := "Indiana", conference := "Big Ten", bpm := 144,
    sec_duration := 55, year := none, trope_count := 3 }

/-- An environment in which every callback is a pure observer. -/
def envNone : Env := fun _ => []

/-- An environment in which callback `0` re-entrantly writes `2` to key
`0`, and every other callback is a pure observer. -/
def envReent : Env := fun c => if c = 0 then [.setSt 0 2] else []

/-- An environment in which callback `1` throws, and every other callback
is a pure observer. -/
def envThrow : Env := fun c => if c = 1 then [.throwErr] else []

/-- A store with value `0` at key `0` and callbacks `0`, `1` subscribed to
key `0`. -/
def stoTwo : Sto :=
  { state := fun k => if k = 0 then some 0 else none,
    listeners := fun k => if k = 0 then [0, 1] else [] }

/-- A store with value `0` at key `0` and callbacks `0`, `1`, `2`
subscribed to key `0`. -/
def stoThree : Sto :=
  { state := fun k => if k = 0 then some 0 else none,
    listeners := fun k => if k = 0 then [0, 1, 2] else [] }

/-! # Theorems -/

/-! ## Store execution helpers -/

theorem notifyCount_append (K : Nat) (l1 l2 : List Event) :
    notifyCount K (l1 ++ l2) = notifyCount K l1 + notifyCount K l2 :=
  List.countP_append _ _ _

theorem invokesOnKey_append (K : Nat) (l1 l2 : List Event) :
    invokesOnKey K (l1 ++ l2) = invokesOnKey K l1 ++ invokesOnKey K l2 :=
  List.filterMap_append _ _ _

/-- `exec` never changes the listener registrations (the modelled callback
bodies contain no `subscribe`). -/
theorem exec_listeners (env : Env) :
    ∀ (fuel : Nat) (job : Job) (σ : Sto),
      (exec env fuel job σ).1.listeners = σ.listeners := by
  intro fuel
  induction fuel with
  | zero => intro job σ; rfl
  | succ n ih =>
    intro job σ
    cases job with
    | setJ k v =>
      simp only [exec]
      split
      · rfl
      · exact (ih _ _).trans rfl
    | cbsJ cbs k v =>
      cases cbs with
      | nil => rfl
      | cons c rest =>
        simp only [exec]
        exact (ih _ _).trans (ih _ _)
    | progJ c p =>
      cases p with
      | nil => rfl
      | cons cmd rest =>
        cases cmd with
        | throwErr => rfl
        | setSt k v =>
          simp only [exec]
          exact (ih _ _).trans (ih _ _)

/-- A job that stays away from key `K`, run under an environment whose
callbacks never write `K`, leaves `K`'s stored value unchanged and emits
no notification and no callback invocation for `K`. -/
theorem exec_away_from_key (env : Env) (K : Nat)
    (h3 : ∀ c, writesKey K (env c) = false) :
    ∀ (fuel : Nat) (job : Job) (σ : Sto), jobSafe K job →
      (exec env fuel job σ).1.state K = σ.state K ∧
      notifyCount K (exec env fuel job σ).2 = 0 ∧
      invokesOnKey K (exec env fuel job σ).2 = [] := by
  intro fuel
  induction fuel with
  | zero => intro job σ _; exact ⟨rfl, rfl, rfl⟩
  | succ n ih =>
    intro job σ hsafe
    cases job with
    | setJ k v =>
      have hk : k ≠ K := hsafe
      simp only [exec]
      split
      · exact ⟨rfl, rfl, rfl⟩
      · have hcbs := ih (.cbsJ ((σ.setVal k v).listeners k) k v) (σ.setVal k v) hk
        refine ⟨?_, ?_, ?_⟩
        · rw [hcbs.1]
          show (if K = k then some v else σ.state K) = σ.state K
          rw [if_neg (Ne.symm hk)]
        · have h2 := hcbs.2.1
          simp only [notifyCount, List.countP_cons] at h2 ⊢
          simp [h2, hk]
        · have h2 := hcbs.2.2
          simp only [invokesOnKey, List.filterMap_cons] at h2 ⊢
          simpa using h2
    | cbsJ cbs k v =>
      cases cbs with
      | nil => exact ⟨rfl, rfl, rfl⟩
      | cons c rest =>
        have hk : k ≠ K := hsafe
        have h1 := ih (.progJ c (env c)) σ (h3 c)
        have h2 := ih (.cbsJ rest k v) (exec env n (.progJ c (env c)) σ).1 hk
        simp only [exec]
        refine ⟨h2.1.trans h1.1, ?_, ?_⟩
        · simp only [notifyCount, List.countP_cons, List.countP_append] at h1 h2 ⊢
          simp [h1.2.1, h2.2.1, hk]
        · simp only [invokesOnKey, List.filterMap_cons, List.filterMap_append]
            at h1 h2 ⊢
          simp [h1.2.2, h2.2.2, hk]
    | progJ c p =>
      cases p with
      | nil => exact ⟨rfl, rfl, rfl⟩
      | cons cmd rest =>
        cases cmd with
        | throwErr => exact ⟨rfl, rfl, rfl⟩
        | setSt k v =>
          have hsafe2 : writesKey K (.setSt k v :: rest) = false := hsafe
          have hks : ¬(k = K) ∧ writesKey K rest = false := by
            simpa [writesKey] using hsafe2
          have h1 := ih (.setJ k v) σ hks.1
          have h2 := ih (.progJ c rest) (exec env n (.setJ k v) σ).1 hks.2
          simp only [exec]
          refine ⟨h2.1.trans h1.1, ?_, ?_⟩
          · simp only [notifyCount, List.countP_append] at h1 h2 ⊢
            simp [h1.2.1, h2.2.1]
          · simp only [invokesOnKey, List.filterMap_append] at h1 h2 ⊢
            simp [h1.2.2, h2.2.2]

/-- A notification pass for key `K` under callbacks that never write `K`:
the stored value stays put, no further `K`-notification happens, and the
trace contains exactly one invocation per listed callback, each receiving
the pass value, which is also the stored value at that instant. -/
theorem exec_pass_on_key (env : Env) (K : Nat)
    (h3 : ∀ c, writesKey K (env c) = false) :
    ∀ (cs : List Nat) (fuel : Nat) (v : Int) (σ : Sto),
      σ.state K = some v → cs.length < fuel →
      (exec env fuel (.cbsJ cs K v) σ).1.state K = some v ∧
      notifyCount K (exec env fuel (.cbsJ cs K v) σ).2 = 0 ∧
      invokesOnKey K (exec env fuel (.cbsJ cs K v) σ).2 =
        cs.map (fun c => (c, v, some v)) := by
  intro cs
  induction cs with
  | nil =>
    intro fuel v σ hst hf
    cases fuel with
    | zero => omega
    | succ n => exact ⟨hst, rfl, rfl⟩
  | cons c rest ih =>
    intro fuel v σ hst hf
    cases fuel with
    | zero => omega
    | succ n =>
      have hf2 : rest.length < n := by
        simp only [List.length_cons] at hf
        omega
      have h1 := exec_away_from_key env K h3 n (.progJ c (env c)) σ (h3 c)
      have hst1 : (exec env n (.progJ c (env c)) σ).1.state K = some v :=
        h1.1.trans hst
      have h2 := ih n v (exec env n (.progJ c (env c)) σ).1 hst1 hf2
      simp only [exec]
      refine ⟨h2.1, ?_, ?_⟩
      · simp only [notifyCount, List.countP_cons, List.countP_append] at h1 h2 ⊢
        simp [h1.2.1, h2.2.1]
      · simp only [invokesOnKey, List.filterMap_cons, List.filterMap_append]
          at h1 h2 ⊢
        simp [h1.2.2, h2.2.2, hst]

/-- During a notification pass for key `K`, a listed callback whose body
begins by throwing produces a logged error event (and, by
`exec_pass_on_key`, does not prevent the rest of the pass). -/
theorem exec_pass_error (env : Env) (K : Nat) :
    ∀ (cs : List Nat) (fuel : Nat) (v : Int) (σ : Sto) (c0 : Nat) (p : Prog),
      c0 ∈ cs → env c0 = .throwErr :: p → cs.length < fuel →
      Event.errorEv c0 ∈ (exec env fuel (.cbsJ cs K v) σ).2 := by
  intro cs
  induction cs with
  | nil =>
    intro fuel v σ c0 p hmem _ _
    exact absurd hmem (List.not_mem_nil _)
  | cons c rest ih =>
    intro fuel v σ c0 p hmem henv hf
    cases fuel with
    | zero => omega
    | succ n =>
      simp only [exec]
      rcases List.mem_cons.mp hmem with rfl | hmem2
      · cases n with
        | zero => simp only [List.length_cons] at hf; omega
        | succ m =>
          rw [henv]
          simp only [exec]
          exact List.mem_cons_of_mem _ (List.mem_append_left _ (List.mem_singleton.mpr rfl))
      · have hf2 : rest.length < n := by
          simp only [List.length_cons] at hf
          omega
        exact List.mem_cons_of_mem _
          (List.mem_append_right _ (ih n v _ c0 p hmem2 henv hf2))

/-- A callback that is not registered for key `K` is never invoked for `K`
by any store execution (registrations do not change during execution). -/
theorem exec_unlisted (env : Env) (K c : Nat) :
    ∀ (fuel : Nat) (job : Job) (σ : Sto),
      c ∉ σ.listeners K → jobAvoids K c job →
      ∀ arg stored, (c, arg, stored) ∉ invokesOnKey K (exec env fuel job σ).2 := by
  intro fuel
  induction fuel with
  | zero =>
    intro job σ _ _ arg stored h
    exact absurd h (List.not_mem_nil _)
  | succ n ih =>
    intro job σ hout havoid arg stored
    cases job with
    | setJ k v =>
      simp only [exec]
      split
      · exact List.not_mem_nil _
      · simp only [invokesOnKey, List.filterMap_cons]
        exact ih (.cbsJ ((σ.setVal k v).listeners k) k v) (σ.setVal k v) hout
          (fun hkK => hkK ▸ hout) arg stored
    | cbsJ cbs k v =>
      cases cbs with
      | nil => exact List.not_mem_nil _
      | cons c1 rest =>
        have hnotr1 := ih (.progJ c1 (env c1)) σ hout trivial arg stored
        have hout2 : c ∉ (exec env n (.progJ c1 (env c1)) σ).1.listeners K := by
          rw [exec_listeners]
          exact hout
        have havoid2 : jobAvoids K c (.cbsJ rest k v) := fun hkK =>
          fun hc => havoid hkK (List.mem_cons_of_mem _ hc)
        have hnotr2 := ih (.cbsJ rest k v) (exec env n (.progJ c1 (env c1)) σ).1
          hout2 havoid2 arg stored
        simp only [exec, invokesOnKey, List.filterMap_cons, List.filterMap_append]
        by_cases hkK : k = K
        · have hc1 : c1 ≠ c := fun he => havoid hkK (he ▸ List.mem_cons_self _ _)
          rw [if_pos hkK]
          intro hmem
          rcases List.mem_cons.mp hmem with heq | hmem2
          · exact hc1 (by injection heq with e1 _; exact e1.symm)
          · rcases List.mem_append.mp hmem2 with h | h
            · exact hnotr1 (by simpa [invokesOnKey] using h)
            · exact hnotr2 (by simpa [invokesOnKey] using h)
        · rw [if_neg hkK]
          intro hmem
          rcases List.mem_append.mp hmem with h | h
          · exact hnotr1 (by simpa [invokesOnKey] using h)
          · exact hnotr2 (by simpa [invokesOnKey] using h)
    | progJ c1 p =>
      cases p with
      | nil => exact List.not_mem_nil _
      | cons cmd rest =>
        cases cmd with
        | throwErr =>
          intro hmem
          simp [invokesOnKey, exec] at hmem
        | setSt k v =>
          have hnotr1 := ih (.setJ k v) σ hout trivial arg stored
          have hout2 : c ∉ (exec env n (.setJ k v) σ).1.listeners K := by
            rw [exec_listeners]
            exact hout
          have hnotr2 := ih (.progJ c1 rest) (exec env n (.setJ k v) σ).1
            hout2 trivial arg stored
          simp only [exec, invokesOnKey, List.filterMap_append]
          intro hmem
          rcases List.mem_append.mp hmem with h | h
          · exact hnotr1 (by simpa [invokesOnKey] using h)
          · exact hnotr2 (by simpa [invokesOnKey] using h)

/-! ## C1: notification value freshness -/

/-- Counterexample to C1: with callbacks `0` and `1` subscribed to key `0`
(store value `0`) and callback `0` re-entrantly writing `2` to key `0`,
running `setState(0, 1)` invokes callback `1` in the outer pass with value
argument `1` while the value stored for key `0` at that moment is `2` — a
stale argument. -/
theorem setState_stale_reentrant_cex :
    (1, 1, some 2) ∈ invokesOnKey 0 (setState envReent 10 0 1 stoTwo).2 ∧
    ((some (2 : Int) : Option Int) ≠ some 1) ∧
    allFresh 0 (setState envReent 10 0 1 stoTwo).2 = false := by
  refine ⟨by decide, by decide, by decide⟩

/-- C1 as amended: a callback notified for key `K` receives the value that
the triggering `setState` stored when the pass began; when no callback
performs a re-entrant `setState` on `K`, this is the value stored for `K`
at the moment of each invocation (a re-entrant write to `K` cascades
synchronously, and later subscribers of the outer pass still receive the
pass's original value, which may then differ from the stored one). -/
theorem setState_notifies_pass_value (env : Env) (K : Nat)
    (h3 : ∀ c, writesKey K (env c) = false)
    (fuel : Nat) (v : Int) (σ : Sto)
    (hfuel : (σ.listeners K).length < fuel) :
    allFresh K (setState env (fuel + 1) K v σ).2 = true := by
  simp only [setState, exec]
  split
  · rfl
  · have hst : (σ.setVal K v).state K = some v := by
      show (if K = K then some v else σ.state K) = some v
      rw [if_pos rfl]
    have hpass := exec_pass_on_key env K h3 ((σ.setVal K v).listeners K)
      fuel v (σ.setVal K v) hst hfuel
    simp only [allFresh, invokesOnKey, List.filterMap_cons]
    have h2 := hpass.2.2
    simp only [invokesOnKey] at h2
    rw [h2]
    simp [List.all_eq_true]

/-- Witness for C1 (amended): two pure observers of key `0` both see the
freshly stored value. -/
theorem setState_notifies_pass_value_witness :
    allFresh 0 (setState envNone 4 0 1 stoTwo).2 = true :=
  setState_notifies_pass_value envNone 0 (fun _ => rfl) 3 1 stoTwo (by decide)

/-! ## C2: equality-gated writes -/

/-- C2: from stored value `V2 ≠ V1` and pure observers, `setState(K, V1)`
fires exactly one notification for `K`, invoking each subscriber of `K`
exactly once with `V1`; a second `setState(K, V1)` changes nothing and
notifies no one. -/
theorem setState_unchanged_noop (env : Env) (σ : Sto) (K : Nat) (V1 V2 : Int)
    (fuel1 fuel2 : Nat)
    (h0 : σ.state K = some V2) (hne : V1 ≠ V2)
    (h3 : ∀ c, writesKey K (env c) = false)
    (hfuel : (σ.listeners K).length < fuel1) :
    notifyCount K (setState env (fuel1 + 1) K V1 σ).2 = 1 ∧
    invokesOnKey K (setState env (fuel1 + 1) K V1 σ).2 =
      (σ.listeners K).map (fun c => (c, V1, some V1)) ∧
    setState env fuel2 K V1 (setState env (fuel1 + 1) K V1 σ).1 =
      ((setState env (fuel1 + 1) K V1 σ).1, []) := by
  have hgate : ¬(σ.state K = some V1) := by
    rw [h0]
    intro h
    exact hne (by injection h with e; exact e.symm)
  have hst : (σ.setVal K V1).state K = some V1 := by
    show (if K = K then some V1 else σ.state K) = some V1
    rw [if_pos rfl]
  have hpass := exec_pass_on_key env K h3 ((σ.setVal K V1).listeners K)
    fuel1 V1 (σ.setVal K V1) hst hfuel
  have hfin : (setState env (fuel1 + 1) K V1 σ).1.state K = some V1 := by
    simp only [setState, exec]
    rw [if_neg hgate]
    exact hpass.1
  refine ⟨?_, ?_, ?_⟩
  · simp only [setState, exec]
    rw [if_neg hgate]
    have h2 := hpass.2.1
    simp only [notifyCount, List.countP_cons] at h2 ⊢
    simp [h2]
  · simp only [setState, exec]
    rw [if_neg hgate]
    have h2 := hpass.2.2
    simp only [invokesOnKey, List.filterMap_cons] at h2 ⊢
    simpa using h2
  · cases fuel2 with
    | zero => rfl
    | succ m =>
      simp only [setState, exec]
      rw [if_pos (by simpa [setState] using hfin)]

/-- Witness for C2: two observers of key `0`, stored value `0`, written
value `7`, then `7` again. -/
theorem setState_unchanged_noop_witness :
    notifyCount 0 (setState envNone 4 0 7 stoTwo).2 = 1 ∧
    invokesOnKey 0 (setState envNone 4 0 7 stoTwo).2 =
      [(0, 7, some 7), (1, 7, some 7)] ∧
    setState envNone 5 0 7 (setState envNone 4 0 7 stoTwo).1 =
      ((setState envNone 4 0 7 stoTwo).1, []) :=
  setState_unchanged_noop envNone stoTwo 0 7 0 3 5 rfl (by decide)
    (fun _ => rfl) (by decide)

/-! ## C3: unsubscribe -/

/-- C3: the unsubscribe closure returned by `subscribe(K, C)` removes
exactly `C` from `K`'s registration set: `C` is gone, every other
registration of every key is untouched, `C` is never again invoked for
`K` by any subsequent store execution, and a later `setState` on `K` still
invokes every remaining subscriber of `K` exactly once. -/
theorem unsubscribe_spec (σ : Sto) (K c : Nat) :
    (unsubscribe σ K c).state = σ.state ∧
    (unsubscribe σ K c).listeners K = (σ.listeners K).filter (fun d => d ≠ c) ∧
    (∀ k2, k2 ≠ K → (unsubscribe σ K c).listeners k2 = σ.listeners k2) ∧
    c ∉ (unsubscribe σ K c).listeners K ∧
    (∀ d, d ≠ c →
      ((d ∈ (unsubscribe σ K c).listeners K) ↔ d ∈ σ.listeners K)) ∧
    (∀ (env : Env) (fuel k2 : Nat) (v arg : Int) (stored : Option Int),
      (c, arg, stored) ∉
        invokesOnKey K (setState env fuel k2 v (unsubscribe σ K c)).2) ∧
    (∀ (env : Env) (fuel : Nat) (v : Int),
      (∀ c2, writesKey K (env c2) = false) →
      σ.state K ≠ some v →
      ((unsubscribe σ K c).listeners K).length < fuel →
      invokesOnKey K (setState env (fuel + 1) K v (unsubscribe σ K c)).2 =
        ((σ.listeners K).filter (fun d => d ≠ c)).map (fun d => (d, v, some v))) := by
  have hlist : (unsubscribe σ K c).listeners K =
      (σ.listeners K).filter (fun d => d ≠ c) := by
    show (if K = K then _ else _) = _
    rw [if_pos rfl]
  have hnot : c ∉ (unsubscribe σ K c).listeners K := by
    rw [hlist]
    simp [List.mem_filter]
  refine ⟨rfl, hlist, ?_, hnot, ?_, ?_, ?_⟩
  · intro k2 hk2
    show (if k2 = K then _ else _) = _
    rw [if_neg hk2]
  · intro d hd
    rw [hlist]
    simp [List.mem_filter, hd]
  · intro env fuel k2 v arg stored
    exact exec_unlisted env K c fuel (.setJ k2 v) (unsubscribe σ K c)
      hnot trivial arg stored
  · intro env fuel v hw hgate hlen
    have hgate2 : ¬((unsubscribe σ K c).state K = some v) := hgate
    have hst : ((unsubscribe σ K c).setVal K v).state K = some v := by
      show (if K = K then some v else _) = some v
      rw [if_pos rfl]
    have hpass := exec_pass_on_key env K hw
      (((unsubscribe σ K c).setVal K v).listeners K) fuel v
      ((unsubscribe σ K c).setVal K v) hst hlen
    simp only [setState, exec]
    rw [if_neg hgate2]
    have h2 := hpass.2.2
    simp only [invokesOnKey, List.filterMap_cons] at h2 ⊢
    rw [h2]
    show ((unsubscribe σ K c).listeners K).map _ = _
    rw [hlist]

/-- Witness for C3: removing callback `1` from key `0`'s three
subscribers. -/
theorem unsubscribe_spec_witness :
    (unsubscribe stoThree 0 1).listeners 0 = [0, 2] ∧
    (1, 9, (some 9 : Option Int)) ∉
      invokesOnKey 0 (setState envNone 9 0 9 (unsubscribe stoThree 0 1)).2 ∧
    invokesOnKey 0 (setState envNone 4 0 9 (unsubscribe stoThree 0 1)).2 =
      [(0, 9, some 9), (2, 9, some 9)] := by
  have h := unsubscribe_spec stoThree 0 1
  exact ⟨h.2.1, h.2.2.2.2.2.1 envNone 9 0 9 9 (some 9),
    h.2.2.2.2.2.2 envNone 3 9 (fun _ => rfl) (by decide) (by decide)⟩

/-! ## C4: error isolation -/

/-- C4: if a subscriber of `K` throws during notification, the error is
caught and logged at the notification boundary, the `setState` call
completes, every subscriber of `K` (including those after the failing one)
is still invoked with the new value, and the stored value for `K` remains
the newly written value. -/
theorem notify_error_isolated (env : Env) (σ : Sto) (K : Nat) (v V0 : Int)
    (c0 : Nat) (p : Prog) (fuel : Nat)
    (h0 : σ.state K = some V0) (hne : v ≠ V0)
    (hc0 : c0 ∈ σ.listeners K) (henv : env c0 = .throwErr :: p)
    (h3 : ∀ c, writesKey K (env c) = false)
    (hfuel : (σ.listeners K).length < fuel) :
    Event.errorEv c0 ∈ (setState env (fuel + 1) K v σ).2 ∧
    invokesOnKey K (setState env (fuel + 1) K v σ).2 =
      (σ.listeners K).map (fun d => (d, v, some v)) ∧
    (setState env (fuel + 1) K v σ).1.state K = some v := by
  have hgate : ¬(σ.state K = some v) := by
    rw [h0]
    intro h
    exact hne (by injection h with e; exact e.symm)
  have hst : (σ.setVal K v).state K = some v := by
    show (if K = K then some v else σ.state K) = some v
    rw [if_pos rfl]
  have hpass := exec_pass_on_key env K h3 ((σ.setVal K v).listeners K)
    fuel v (σ.setVal K v) hst hfuel
  have herr := exec_pass_error env K ((σ.setVal K v).listeners K)
    fuel v (σ.setVal K v) c0 p hc0 henv hfuel
  refine ⟨?_, ?_, ?_⟩
  · simp only [setState, exec]
    rw [if_neg hgate]
    exact List.mem_cons_of_mem _ herr
  · simp only [setState, exec]
    rw [if_neg hgate]
    have h2 := hpass.2.2
    simp only [invokesOnKey, List.filterMap_cons] at h2 ⊢
    simpa using h2
  · simp only [setState, exec]
    rw [if_neg hgate]
    exact hpass.1

/-- Witness for C4: subscriber `1` of key `0` throws; subscribers `0`,
`1`, `2` are all still invoked with the new value `3`, the error is
logged, and the stored value stays `3`. -/
theorem notify_error_isolated_witness :
    Event.errorEv 1 ∈ (setState envThrow 5 0 3 stoThree).2 ∧
    invokesOnKey 0 (setState envThrow 5 0 3 stoThree).2 =
      [(0, 3, some 3), (1, 3, some 3), (2, 3, some 3)] ∧
    (setState envThrow 5 0 3 stoThree).1.state 0 = some 3 :=
  notify_error_isolated envThrow stoThree 0 3 0 1 [] 4 rfl (by decide)
    (by decide) rfl
    (by
      intro c
      simp only [envThrow]
      split
      · rfl
      · rfl)
    (by decide)

/-! ## Sorting helpers -/

theorem insertSorted_perm (le : School → School → Bool) (a : School) :
    ∀ l : List School, (insertSorted le a l).Perm (a :: l) := by
  intro l
  induction l with
  | nil => simp [insertSorted]
  | cons b bs ih =>
    simp only [insertSorted]
    split
    · exact List.Perm.refl _
    · exact (ih.cons b).trans (List.Perm.swap a b bs)

theorem jsSort_perm (le : School → School → Bool) :
    ∀ l : List School, (jsSort le l).Perm l := by
  intro l
  induction l with
  | nil => simp [jsSort]
  | cons a rest ih =>
    simp only [jsSort]
    exact (insertSorted_perm le a (jsSort le rest)).trans (ih.cons a)

theorem insertSorted_pairwise {R : School → School → Prop}
    (hT : Transitive R) (le : School → School → Bool)
    (hts : ∀ x y, le x y = true → R x y)
    (hfs : ∀ x y, le x y = false → R y x) (a : School) :
    ∀ l : List School, l.Pairwise R → (insertSorted le a l).Pairwise R := by
  intro l
  induction l with
  | nil => intro _; simp [insertSorted]
  | cons b bs ih =>
    intro hp
    rw [List.pairwise_cons] at hp
    simp only [insertSorted]
    cases hle : le a b with
    | true =>
      simp only [if_true]
      rw [List.pairwise_cons]
      refine ⟨?_, List.pairwise_cons.mpr hp⟩
      intro x hx
      rcases List.mem_cons.mp hx with hxb | hxbs
      · exact hxb ▸ hts a b hle
      · exact hT (hts a b hle) (hp.1 x hxbs)
    | false =>
      rw [if_neg Bool.false_ne_true]
      rw [List.pairwise_cons]
      refine ⟨?_, ih hp.2⟩
      intro x hx
      rcases List.mem_cons.mp ((insertSorted_perm le a bs).mem_iff.mp hx) with hxa | hxbs
      · exact hxa ▸ hfs a b hle
      · exact hp.1 x hxbs

theorem jsSort_pairwise {R : School → School → Prop}
    (hT : Transitive R) (le : School → School → Bool)
    (hts : ∀ x y, le x y = true → R x y)
    (hfs : ∀ x y, le x y = false → R y x) :
    ∀ l : List School, (jsSort le l).Pairwise R := by
  intro l
  induction l with
  | nil => simp [jsSort]
  | cons a rest ih =>
    simp only [jsSort]
    exact insertSorted_pairwise hT le hts hfs a (jsSort le rest) ih

/-! ## C8: matrix resort by tempo -/

/-- C8: after `TropeMatrix.resort('bpm')` (which displays the columns in
`sortSchools(schools, 'bpm')` order) every pair of adjacent columns has the
left column's `bpm` greater than or equal to the right column's, for every
input list of school records. -/
theorem sortSchools_bpm_nonincreasing (schools : List School) :
    List.Chain' (fun a b => b.bpm ≤ a.bpm) (sortSchools schools "bpm") := by
  have hp : (sortSchools schools "bpm").Pairwise (fun a b => b.bpm ≤ a.bpm) := by
    show (jsSort (fun a b => decide (b.bpm - a.bpm ≤ 0)) schools).Pairwise _
    refine jsSort_pairwise ?_ _ ?_ ?_ schools
    · intro a b c hab hbc
      exact le_trans hbc hab
    · intro x y h
      have := of_decide_eq_true h
      linarith
    · intro x y h
      have := of_decide_eq_false h
      push_neg at this
      linarith
  exact hp.chain'

/-! ## C10: sort by founding year -/

/-- C10: `sortSchools(schools, 'year')` returns a rearrangement of the
input (the input array itself is not mutated; the function sorts a copy)
in which every record with a `null` year comes after every record with a
known year, and the known years appear in non-decreasing order. -/
theorem sortSchools_year_spec (schools : List School) :
    (sortSchools schools "year").Perm schools ∧
      (sortSchools schools "year").Pairwise yearLe := by
  constructor
  · show (jsSort (fun a b => decide (cmpYear a b ≤ 0)) schools).Perm schools
    exact jsSort_perm _ schools
  · show (jsSort (fun a b => decide (cmpYear a b ≤ 0)) schools).Pairwise yearLe
    refine jsSort_pairwise ?_ _ ?_ ?_ schools
    · intro a b c hab hbc
      rcases hbc with hcn | ⟨yb, yc, hb, hc, hybc⟩
      · exact Or.inl hcn
      · rcases hab with hbn | ⟨ya, yb2, ha, hb2, hyab⟩
        · rw [hbn] at hb; exact absurd hb (by simp)
        · rw [hb2] at hb
          exact Or.inr ⟨ya, yc, ha, hc, le_trans hyab (Option.some_injective _ hb ▸ hybc)⟩
    · intro x y h
      have hle := of_decide_eq_true h
      cases hx : x.year with
      | none =>
        simp only [cmpYear, hx] at hle
        exact absurd hle (by decide)
      | some ya =>
        cases hy : y.year with
        | none => exact Or.inl hy
        | some yb =>
          simp only [cmpYear, hx, hy] at hle
          exact Or.inr ⟨ya, yb, hx, hy, by omega⟩
    · intro x y h
      have hgt := of_decide_eq_false h
      push_neg at hgt
      cases hx : x.year with
      | none => exact Or.inl hx
      | some ya =>
        cases hy : y.year with
        | none =>
          simp only [cmpYear, hx, hy] at hgt
          exact absurd hgt (by decide)
        | some yb =>
          simp only [cmpYear, hx, hy] at hgt
          exact Or.inr ⟨yb, ya, hy, hx, by omega⟩

/-! ## C5 and C6: similarity network -/

/-- C5: for every pair of distinct schools enumerated by
`NetworkGraph.prepareData`, a link is created iff the weighted similarity
score exceeds the threshold `0.7`; the score is
`(bpmSim*0.3 + durationSim*0.2 + tropeSim*0.2 + confSim)/0.7` with
`bpmSim = 1 - min(|Δbpm|/100, 1)`, `durationSim = 1 - min(|Δdur|/60, 1)`,
`tropeSim = 1 - min(|Δtrope|/10, 1)`, each of these three in `[0,1]`, and
`confSim = 0.3` for a shared conference and `0` otherwise. -/
theorem prepareLinks_edge_iff (schools : List School) (a b : School)
    (hmem : (a, b) ∈ pairsAfter schools) :
    ((a, b, calculateSimilarity a b) ∈ prepareLinks schools ↔
      similarityThreshold < calculateSimilarity a b) ∧
    similarityThreshold = 0.7 ∧
    calculateSimilarity a b =
      ((1 - min (|a.bpm - b.bpm| / 100) 1) * 0.3 +
       (1 - min (|a.sec_duration - b.sec_duration| / 60) 1) * 0.2 +
       (1 - min (|a.trope_count - b.trope_count| / 10) 1) * 0.2 +
       (if a.conference = b.conference then (0.3 : ℚ) else 0)) / 0.7 ∧
    (0 ≤ 1 - min (|a.bpm - b.bpm| / 100) 1 ∧
      1 - min (|a.bpm - b.bpm| / 100) 1 ≤ 1) ∧
    (0 ≤ 1 - min (|a.sec_duration - b.sec_duration| / 60) 1 ∧
      1 - min (|a.sec_duration - b.sec_duration| / 60) 1 ≤ 1) ∧
    (0 ≤ 1 - min (|a.trope_count - b.trope_count| / 10) 1 ∧
      1 - min (|a.trope_count - b.trope_count| / 10) 1 ≤ 1) := by
  refine ⟨?_, rfl, rfl, ?_, ?_, ?_⟩
  · constructor
    · intro h
      rcases List.mem_filterMap.mp h with ⟨p, _, heq⟩
      by_cases hth : similarityThreshold < calculateSimilarity p.1 p.2
      · rw [if_pos hth] at heq
        simp only [Option.some.injEq, Prod.mk.injEq] at heq
        rw [← heq.1, ← heq.2.1]
        exact hth
      · rw [if_neg hth] at heq
        exact absurd heq (by simp)
    · intro h
      refine List.mem_filterMap.mpr ⟨(a, b), hmem, ?_⟩
      simp only []
      rw [if_pos h]
  · constructor
    · have : min (|a.bpm - b.bpm| / 100) 1 ≤ 1 := min_le_right _ _
      linarith
    · have : (0 : ℚ) ≤ min (|a.bpm - b.bpm| / 100) 1 :=
        le_min (div_nonneg (abs_nonneg _) (by norm_num)) (by norm_num)
      linarith
  · constructor
    · have : min (|a.sec_duration - b.sec_duration| / 60) 1 ≤ 1 := min_le_right _ _
      linarith
    · have : (0 : ℚ) ≤ min (|a.sec_duration - b.sec_duration| / 60) 1 :=
        le_min (div_nonneg (abs_nonneg _) (by norm_num)) (by norm_num)
      linarith
  · constructor
    · have : min (|a.trope_count - b.trope_count| / 10) 1 ≤ 1 := min_le_right _ _
      linarith
    · have : (0 : ℚ) ≤ min (|a.trope_count - b.trope_count| / 10) 1 :=
        le_min (div_nonneg (abs_nonneg _) (by norm_num)) (by norm_num)
      linarith

/-- Witness for C5: in a concrete two-school list the pair gets a link, and
that matches `0.7 < similarity`. -/
theorem prepareLinks_edge_iff_witness :
    ((purdueRec, highTropeRec, calculateSimilarity purdueRec highTropeRec) ∈
        prepareLinks [purdueRec, highTropeRec] ↔
      similarityThreshold < calculateSimilarity purdueRec highTropeRec) ∧
    similarityThreshold = 0.7 ∧
    calculateSimilarity purdueRec highTropeRec =
      ((1 - min (|purdueRec.bpm - highTropeRec.bpm| / 100) 1) * 0.3 +
       (1 - min (|purdueRec.sec_duration - highTropeRec.sec_duration| / 60) 1) * 0.2 +
       (1 - min (|purdueRec.trope_count - highTropeRec.trope_count| / 10) 1) * 0.2 +
       (if purdueRec.conference = highTropeRec.conference then (0.3 : ℚ) else 0)) / 0.7 ∧
    (0 ≤ 1 - min (|purdueRec.bpm - highTropeRec.bpm| / 100) 1 ∧
      1 - min (|purdueRec.bpm - highTropeRec.bpm| / 100) 1 ≤ 1) ∧
    (0 ≤ 1 - min (|purdueRec.sec_duration - highTropeRec.sec_duration| / 60) 1 ∧
      1 - min (|purdueRec.sec_duration - highTropeRec.sec_duration| / 60) 1 ≤ 1) ∧
    (0 ≤ 1 - min (|purdueRec.trope_count - highTropeRec.trope_count| / 10) 1 ∧
      1 - min (|purdueRec.trope_count - highTropeRec.trope_count| / 10) 1 ≤ 1) :=
  prepareLinks_edge_iff [purdueRec, highTropeRec] purdueRec highTropeRec (by decide)

/-- C6: the similarity score of two records with identical tempo, duration,
trope count and conference is the maximal `(0.3+0.2+0.2+0.3)/0.7 = 10/7`,
which exceeds the `0.7` edge threshold. -/
theorem calculateSimilarity_identical (s1 s2 : School)
    (hb : s1.bpm = s2.bpm) (hd : s1.sec_duration = s2.sec_duration)
    (ht : s1.trope_count = s2.trope_count) (hc : s1.conference = s2.conference) :
    calculateSimilarity s1 s2 = 10 / 7 ∧ similarityThreshold < 10 / 7 := by
  constructor
  · simp only [calculateSimilarity, hb, hd, ht, hc, sub_self, abs_zero, zero_div,
      if_pos rfl]
    norm_num
  · norm_num [similarityThreshold]

/-- Witness for C6: the similarity of the featured record with itself. -/
theorem calculateSimilarity_identical_witness :
    calculateSimilarity purdueRec purdueRec = 10 / 7 ∧ similarityThreshold < 10 / 7 :=
  calculateSimilarity_identical purdueRec purdueRec rfl rfl rfl rfl

/-! ## C7: conference filtering -/

/-- Counterexample to C7: in the rose-chart view, setting the filter to
`"SEC"` leaves the featured Purdue arc (a Big Ten school) at stroke
opacity `1`; it is not set to the view's dimmed opacity `0.15`. -/
theorem clock_filter_purdue_cex :
    isPurdue purdueRec = true ∧
    purdueRec.conference = "Big Ten" ∧
    clockFilterOpacity "SEC" purdueRec = 1 ∧
    clockFilterOpacity "SEC" highTropeRec = 0.15 ∧
    ((1 : ℚ) ≠ 0.15) := by
  refine ⟨rfl, rfl, ?_, ?_, by norm_num⟩
  · rw [clockFilterOpacity, if_pos (by decide)]
  · rw [clockFilterOpacity]
    rw [if_neg (by decide), if_neg (by decide)]

/-- C7 as amended: on filter change to `F`, the map view shows every
element (featured included) at opacity `1` when its conference matches `F`
or `F = "all"` and dims every other element to `0.15`; the rose-chart view
applies the same rule to non-featured arcs (full `0.75`, dimmed `0.15`)
but always keeps the featured Purdue arc at opacity `1`, even when its
conference does not match `F`. -/
theorem filterByConference_opacity (conference : String) (d : School) :
    (conference = "all" →
      mapFilterOpacity conference d = 1 ∧
      clockFilterOpacity conference d = (if isPurdue d then 1 else 0.75)) ∧
    (conference ≠ "all" → d.conference = conference →
      mapFilterOpacity conference d = 1 ∧
      (isPurdue d = false → clockFilterOpacity conference d = 0.75)) ∧
    (conference ≠ "all" → d.conference ≠ conference →
      mapFilterOpacity conference d = 0.15 ∧
      (isPurdue d = false → clockFilterOpacity conference d = 0.15) ∧
      (isPurdue d = true → clockFilterOpacity conference d = 1)) := by
  refine ⟨?_, ?_, ?_⟩
  · intro hall
    constructor
    · rw [mapFilterOpacity, if_pos (Or.inl hall)]
    · rw [clockFilterOpacity]
      cases hpu : isPurdue d with
      | true => simp
      | false => simp [hall]
  · intro _ hmatch
    constructor
    · rw [mapFilterOpacity, if_pos (Or.inr hmatch)]
    · intro hpu
      rw [clockFilterOpacity, if_neg (by simp [hpu]), if_pos (Or.inr hmatch)]
  · intro hall hmatch
    refine ⟨?_, ?_, ?_⟩
    · rw [mapFilterOpacity, if_neg (by simp [hall, hmatch])]
    · intro hpu
      rw [clockFilterOpacity, if_neg (by simp [hpu]),
        if_neg (by simp [hall, hmatch])]
    · intro hpu
      rw [clockFilterOpacity, if_pos hpu]

/-- Witness for C7 (amended): concrete opacities for a non-matching filter
over a featured and a non-featured record. -/
theorem filterByConference_opacity_witness :
    mapFilterOpacity "SEC" purdueRec = 0.15 ∧
    clockFilterOpacity "SEC" purdueRec = 1 ∧
    mapFilterOpacity "all" highTropeRec = 1 := by
  refine ⟨?_, ?_, ?_⟩
  · exact ((filterByConference_opacity "SEC" purdueRec).2.2 (by decide) (by decide)).1
  · exact ((filterByConference_opacity "SEC" purdueRec).2.2 (by decide) (by decide)).2.2 rfl
  · exact ((filterByConference_opacity "all" highTropeRec).1 rfl).1

/-! ## C9: marker radii -/

/-- Counterexample to C9: a non-featured school with five tropes (a
non-negative trope count) gets map radius `5 + 1.5·5 = 12.5`, strictly
larger than the featured marker's fixed radius `12`, so the featured
school does not always render largest. -/
theorem featured_not_largest_cex :
    isPurdue purdueRec = true ∧
    isPurdue highTropeRec = false ∧
    (0 : ℚ) ≤ highTropeRec.trope_count ∧
    mapGetRadius highTropeRec = 12.5 ∧
    mapGetRadius purdueRec < mapGetRadius highTropeRec := by
  refine ⟨rfl, rfl, by norm_num [highTropeRec], ?_, ?_⟩
  · rw [mapGetRadius, if_neg (by decide)]
    norm_num [highTropeRec]
  · rw [mapGetRadius, mapGetRadius, if_pos (by decide), if_neg (by decide)]
    norm_num [highTropeRec]

/-- C9 as amended: in the map, scatter and hero-map views a non-featured
school's marker radius is `5 + 1.5·t`, `4 + 1·t` and `6 + 1.2·t`
respectively (`t` its trope count) and the featured school's is the fixed
`12`, `10` and `29`; the featured marker is strictly largest in all three
views for every dataset whose non-featured trope counts lie in `[0, 4]`. -/
theorem marker_radius_spec (p s : School)
    (hp : isPurdue p = true) (hs : isPurdue s = false)
    (h0 : 0 ≤ s.trope_count) (h4 : s.trope_count ≤ 4) :
    mapGetRadius s = 5 + s.trope_count * 1.5 ∧
    scatterGetRadius s = 4 + s.trope_count * 1 ∧
    heroMarkerSize s = 6 + s.trope_count * 1.2 ∧
    mapGetRadius p = 12 ∧ scatterGetRadius p = 10 ∧ heroMarkerSize p = 29 ∧
    mapGetRadius s < mapGetRadius p ∧
    scatterGetRadius s < scatterGetRadius p ∧
    heroMarkerSize s < heroMarkerSize p := by
  have e1 : mapGetRadius s = 5 + s.trope_count * 1.5 := by
    rw [mapGetRadius, if_neg (by simp [hs])]
  have e2 : scatterGetRadius s = 4 + s.trope_count * 1 := by
    rw [scatterGetRadius, if_neg (by simp [hs])]
  have e3 : heroMarkerSize s = 6 + s.trope_count * 1.2 := by
    rw [heroMarkerSize, if_neg (by simp [hs])]
  have f1 : mapGetRadius p = 12 := by rw [mapGetRadius, if_pos hp]
  have f2 : scatterGetRadius p = 10 := by rw [scatterGetRadius, if_pos hp]
  have f3 : heroMarkerSize p = 29 := by rw [heroMarkerSize, if_pos hp]
  refine ⟨e1, e2, e3, f1, f2, f3, ?_, ?_, ?_⟩
  · rw [e1, f1]; linarith
  · rw [e2, f2]; linarith
  · rw [e3, f3]; linarith

/-- Witness for C9 (amended): the featured record against a concrete
three-trope school. -/
theorem marker_radius_spec_witness :
    mapGetRadius lowTropeRec = 5 + lowTropeRec.trope_count * 1.5 ∧
    scatterGetRadius lowTropeRec = 4 + lowTropeRec.trope_count * 1 ∧
    heroMarkerSize lowTropeRec = 6 + lowTropeRec.trope_count * 1.2 ∧
    mapGetRadius purdueRec = 12 ∧ scatterGetRadius purdueRec = 10 ∧
    heroMarkerSize purdueRec = 29 ∧
    mapGetRadius lowTropeRec < mapGetRadius purdueRec ∧
    scatterGetRadius lowTropeRec < scatterGetRadius purdueRec ∧
    heroMarkerSize lowTropeRec < heroMarkerSize purdueRec :=
  marker_radius_spec purdueRec lowTropeRec rfl rfl
    (by norm_num [lowTropeRec]) (by norm_num [lowTropeRec])

end FightSong
